import Mathlib

/-!
Verification of the `atomic_slice_pointer` Rust crate (src/once_slice.rs,
src/once_slice_metadata.rs) against its natural-language specification.

The two containers are modelled by explicit states. The atomic pointer
field `ptr` together with the heap allocation it points to is modelled by
`data : Option (List T)`: `none` is the null sentinel, `some l` is a
non-null pointer to a boxed slice holding the elements `l`. A `Box<[T]>`
always has a non-null payload pointer (for the empty slice it is a
dangling, still non-null, pointer), so the compare-exchange in `set`
succeeds on an unset container even for an empty input box. The `len`
field is kept separately, exactly as in the source, since the source
writes it in a second step after winning the pointer race.

The operations of each container are linearized: every `set` decides its
outcome by exactly one atomic compare-exchange on `ptr`, so a run of
concurrent calls is modelled by the sequence of their compare-exchange
steps in linearization order.
-/

/-- Result of `OnceSlicePtr::set` / `OnceSlicePtrMetadata::set`:
`Result<(), V>` where `err v` hands the input `v` back to the caller. -/
inductive SetResult (V : Type) where
  | ok
  | err (value : V)
deriving Repr, DecidableEq

/-- Whether a `set` call reported success. -/
def SetResult.isOk {V : Type} : SetResult V → Bool
  | SetResult.ok => true
  | SetResult.err _ => false

/-- Which of the two atomically written fields (`ptr`, `len`) a single
operation stored to. -/
structure WriteEffect where
  wrotePtr : Bool
  wroteLen : Bool
deriving Repr, DecidableEq

/-- The fields of the Rust struct `OnceSlicePtr<T>`:
`ptr: AtomicPtr<T>` plus the allocation behind it as `data`, and
`len: AtomicUsize` as `len`. -/
structure SliceState (T : Type) where
  data : Option (List T)
  len : Nat
deriving Repr, DecidableEq

namespace OnceSlicePtr

variable {T : Type}

/-- `OnceSlicePtr::new`: null pointer, length zero. -/
def new (T : Type) : SliceState T :=
  { data := none, len := 0 }

/-- `OnceSlicePtr::set`: compare-exchange `ptr` from null to the box
pointer (non-null even for an empty box). On failure the box is returned
to the caller untouched; on success `len` is stored and the box is
forgotten, transferring ownership of the allocation to the container. -/
def set (s : SliceState T) (value : List T) : SliceState T × SetResult (List T) :=
  match s.data with
  | some _ => (s, SetResult.err value)
  | none => ({ data := some value, len := value.length }, SetResult.ok)

/-- `OnceSlicePtr::get`: load `ptr`; if non-null load `len`; if `len` is
nonzero return the slice `from_raw_parts(ptr, len)`, i.e. the first `len`
elements of the allocation; otherwise `None`. -/
def get (s : SliceState T) : Option (List T) :=
  match s.data with
  | none => none
  | some l => if s.len ≠ 0 then some (l.take s.len) else none

/-- `OnceSlicePtr::get_mut`: same reads and conditions as `get`, with a
mutable slice result. -/
def get_mut (s : SliceState T) : Option (List T) :=
  match s.data with
  | none => none
  | some l => if s.len ≠ 0 then some (l.take s.len) else none

/-- Sequential composition of `set` calls (the linearization order of
their compare-exchange steps): final state plus the result each call
returned. -/
def runSets (s : SliceState T) : List (List T) → SliceState T × List (SetResult (List T))
  | [] => (s, [])
  | b :: rest =>
    let step := set s b
    let next := runSets step.1 rest
    (next.1, step.2 :: next.2)

/-- The public operations of `OnceSlicePtr` that can run on a shared or
exclusive reference after construction. -/
inductive Op (T : Type) where
  | setOp (value : List T)
  | getOp
  | getMutOp

/-- One operation together with the stores it performs: only a `set` call
that wins the compare-exchange stores to `ptr` and to `len`; a losing
`set`, `get` and `get_mut` perform loads only. -/
def stepEff (s : SliceState T) : Op T → SliceState T × WriteEffect
  | Op.setOp v =>
    match s.data with
    | some _ => (s, { wrotePtr := false, wroteLen := false })
    | none =>
      ({ data := some v, len := v.length }, { wrotePtr := true, wroteLen := true })
  | Op.getOp => (s, { wrotePtr := false, wroteLen := false })
  | Op.getMutOp => (s, { wrotePtr := false, wroteLen := false })

/-- Runs a sequence of operations (their linearization order). -/
def run (s : SliceState T) : List (Op T) → SliceState T
  | [] => s
  | op :: rest => run (stepEff s op).1 rest

/-- Number of operations of a trace that store to `ptr`. -/
def ptrWrites (s : SliceState T) : List (Op T) → Nat
  | [] => 0
  | op :: rest =>
    (if (stepEff s op).2.wrotePtr then 1 else 0) + ptrWrites (stepEff s op).1 rest

/-- Number of operations of a trace that store to `len`. -/
def lenWrites (s : SliceState T) : List (Op T) → Nat
  | [] => 0
  | op :: rest =>
    (if (stepEff s op).2.wroteLen then 1 else 0) + lenWrites (stepEff s op).1 rest

/-- Effects of `impl Drop for OnceSlicePtr`: which elements had their
destructor run in place, and whether the backing heap allocation was
deallocated. The source runs
`ptr::slice_from_raw_parts_mut(ptr, len).drop_in_place()` when `ptr` is
non-null, which destroys the first `len` elements of the allocation; no
deallocation call appears anywhere in the drop path. -/
structure DropEffect (T : Type) where
  dropped : List T
  freed : Bool
deriving Repr, DecidableEq

/-- `impl Drop for OnceSlicePtr::drop`: if `ptr` is null, nothing happens;
otherwise the first `len` elements are dropped in place. The allocation
itself is never handed back to the allocator (`drop_in_place` on a slice
pointer runs element destructors only, and the box was forgotten in
`set`). -/
def dropModel (s : SliceState T) : DropEffect T :=
  match s.data with
  | none => { dropped := [], freed := false }
  | some l => { dropped := l.take s.len, freed := false }

end OnceSlicePtr

/-- The fields of the Rust struct `OnceSlicePtrMetadata<T, M>`:
`metadata_flag: AtomicBool`, `metadata: MaybeUninit<UnsafeCell<M>>`
(modelled as `Option M`, `none` meaning uninitialized), and the same
`ptr`/`len` pair as `OnceSlicePtr`. -/
structure MetaState (T M : Type) where
  metadata_flag : Bool
  metadata : Option M
  data : Option (List T)
  len : Nat
deriving Repr, DecidableEq

namespace OnceSlicePtrMetadata

variable {T M : Type}

/-- `OnceSlicePtrMetadata::new`: null pointer, zero length, uninitialized
metadata, flag false. -/
def new (T M : Type) : MetaState T M :=
  { metadata_flag := false, metadata := none, data := none, len := 0 }

/-- `OnceSlicePtrMetadata::set`: same compare-exchange on `ptr` as the
plain variant; on success `len` is stored, the metadata value is written
into the metadata storage, and the box is forgotten. No store to
`metadata_flag` occurs anywhere in this function. On failure the pair
`(boxed, metadata)` is handed back untouched. -/
def set (s : MetaState T M) (value : List T × M) : MetaState T M × SetResult (List T × M) :=
  match s.data with
  | some _ => (s, SetResult.err value)
  | none =>
    ({ metadata_flag := s.metadata_flag, metadata := some value.2,
       data := some value.1, len := value.1.length }, SetResult.ok)

/-- `OnceSlicePtrMetadata::get`: identical reads to `OnceSlicePtr::get`. -/
def get (s : MetaState T M) : Option (List T) :=
  match s.data with
  | none => none
  | some l => if s.len ≠ 0 then some (l.take s.len) else none

/-- `OnceSlicePtrMetadata::get_mut`: identical reads to
`OnceSlicePtr::get_mut`. -/
def get_mut (s : MetaState T M) : Option (List T) :=
  match s.data with
  | none => none
  | some l => if s.len ≠ 0 then some (l.take s.len) else none

/-- `OnceSlicePtrMetadata::get_metadata`: load `metadata_flag`; if it is
true return a reference to the metadata storage, else `None`. -/
def get_metadata (s : MetaState T M) : Option M :=
  if s.metadata_flag then s.metadata else none

/-- `OnceSlicePtrMetadata::get_mut_metadata`: same condition as
`get_metadata`, mutable reference. -/
def get_mut_metadata (s : MetaState T M) : Option M :=
  if s.metadata_flag then s.metadata else none

/-- Sequential composition of `set` calls on the metadata variant. -/
def runSets (s : MetaState T M) :
    List (List T × M) → MetaState T M × List (SetResult (List T × M))
  | [] => (s, [])
  | p :: rest =>
    let step := set s p
    let next := runSets step.1 rest
    (next.1, step.2 :: next.2)

/-- The public operations of `OnceSlicePtrMetadata` after construction. -/
inductive MOp (T M : Type) where
  | setOp (value : List T × M)
  | getOp
  | getMetadataOp
  | getMutOp
  | getMutMetadataOp

/-- One operation with its stores. Only a winning `set` stores, and it
stores to `ptr` and `len` (and the metadata storage); no operation ever
stores to `metadata_flag`. -/
def stepEff (s : MetaState T M) : MOp T M → MetaState T M × WriteEffect
  | MOp.setOp p =>
    match s.data with
    | some _ => (s, { wrotePtr := false, wroteLen := false })
    | none =>
      ({ metadata_flag := s.metadata_flag, metadata := some p.2,
         data := some p.1, len := p.1.length },
       { wrotePtr := true, wroteLen := true })
  | MOp.getOp => (s, { wrotePtr := false, wroteLen := false })
  | MOp.getMetadataOp => (s, { wrotePtr := false, wroteLen := false })
  | MOp.getMutOp => (s, { wrotePtr := false, wroteLen := false })
  | MOp.getMutMetadataOp => (s, { wrotePtr := false, wroteLen := false })

/-- Runs a sequence of operations (their linearization order). -/
def run (s : MetaState T M) : List (MOp T M) → MetaState T M
  | [] => s
  | op :: rest => run (stepEff s op).1 rest

/-- Number of operations of a trace that store to `ptr`. -/
def ptrWrites (s : MetaState T M) : List (MOp T M) → Nat
  | [] => 0
  | op :: rest =>
    (if (stepEff s op).2.wrotePtr then 1 else 0) + ptrWrites (stepEff s op).1 rest

/-- Number of operations of a trace that store to `len`. -/
def lenWrites (s : MetaState T M) : List (MOp T M) → Nat
  | [] => 0
  | op :: rest =>
    (if (stepEff s op).2.wroteLen then 1 else 0) + lenWrites (stepEff s op).1 rest

/-- Effects of `impl Drop for OnceSlicePtrMetadata`: which slice elements
had their destructor run, whether the backing allocation was deallocated,
and whether the destructor of the metadata value `M` ran. The source drop
runs only `slice_from_raw_parts_mut(ptr, len).drop_in_place()` when `ptr`
is non-null; `metadata` is a `MaybeUninit`, whose content is never dropped
automatically, and no manual drop of it appears. -/
structure MetaDropEffect (T : Type) where
  dropped : List T
  freed : Bool
  metadataDropped : Bool
deriving Repr, DecidableEq

/-- `impl Drop for OnceSlicePtrMetadata::drop`: destructors of the first
`len` slice elements run when `ptr` is non-null; the allocation is not
deallocated and the metadata destructor never runs. -/
def dropModel (s : MetaState T M) : MetaDropEffect T :=
  match s.data with
  | none => { dropped := [], freed := false, metadataDropped := false }
  | some l => { dropped := l.take s.len, freed := false, metadataDropped := false }

end OnceSlicePtrMetadata

theorem SetResult.countP_map_err {V A : Type} (f : A → V) (l : List A) :
    ((l.map fun a => SetResult.err (f a)).countP fun r => SetResult.isOk r) = 0 := by
  induction l with
  | nil => rfl
  | cons x xs ih => simp [List.countP_cons, SetResult.isOk, ih]

theorem OnceSlicePtr.stepEff_of_set {T : Type} (s : SliceState T) (l : List T)
    (h : s.data = some l) (op : Op T) :
    stepEff s op = (s, { wrotePtr := false, wroteLen := false }) := by
  cases op <;> simp [stepEff, h]

theorem OnceSlicePtr.run_of_set {T : Type} (s : SliceState T) (l : List T)
    (h : s.data = some l) : ∀ ops, run s ops = s := by
  intro ops
  induction ops with
  | nil => rfl
  | cons op rest ih =>
    calc run s (op :: rest) = run (stepEff s op).1 rest := rfl
      _ = run s rest := by rw [stepEff_of_set s l h op]
      _ = s := ih

theorem OnceSlicePtr.lenWrites_of_set {T : Type} (s : SliceState T) (l : List T)
    (h : s.data = some l) : ∀ ops, lenWrites s ops = 0 := by
  intro ops
  induction ops with
  | nil => rfl
  | cons op rest ih =>
    calc lenWrites s (op :: rest)
        = (if (stepEff s op).2.wroteLen then 1 else 0) + lenWrites (stepEff s op).1 rest := rfl
      _ = 0 := by rw [stepEff_of_set s l h op]; simpa using ih

theorem OnceSlicePtr.stepEff_ptr_eq_len {T : Type} (s : SliceState T) (op : Op T) :
    (stepEff s op).2.wrotePtr = (stepEff s op).2.wroteLen := by
  cases op with
  | setOp v => cases hd : s.data <;> simp [stepEff, hd]
  | getOp => rfl
  | getMutOp => rfl

theorem OnceSlicePtr.ptrWrites_eq_lenWrites {T : Type} :
    ∀ (ops : List (Op T)) (s : SliceState T), ptrWrites s ops = lenWrites s ops := by
  intro ops
  induction ops with
  | nil => intro s; rfl
  | cons op rest ih =>
    intro s
    calc ptrWrites s (op :: rest)
        = (if (stepEff s op).2.wrotePtr then 1 else 0) + ptrWrites (stepEff s op).1 rest := rfl
      _ = (if (stepEff s op).2.wroteLen then 1 else 0) + lenWrites (stepEff s op).1 rest := by
          rw [stepEff_ptr_eq_len, ih]
      _ = lenWrites s (op :: rest) := rfl

theorem OnceSlicePtr.lenWrites_unset_le_one {T : Type} :
    ∀ (ops : List (Op T)) (s : SliceState T), s.data = none → lenWrites s ops ≤ 1 := by
  intro ops
  induction ops with
  | nil => intro s _; exact Nat.zero_le 1
  | cons op rest ih =>
    intro s h
    cases op with
    | setOp v =>
      have h1 : lenWrites s (Op.setOp v :: rest)
          = 1 + lenWrites ({ data := some v, len := v.length } : SliceState T) rest := by
        simp [lenWrites, stepEff, h]
      rw [h1, lenWrites_of_set _ v rfl rest]
    | getOp =>
      have h1 : lenWrites s (Op.getOp :: rest) = lenWrites s rest := by
        simp [lenWrites, stepEff]
      rw [h1]; exact ih s h
    | getMutOp =>
      have h1 : lenWrites s (Op.getMutOp :: rest) = lenWrites s rest := by
        simp [lenWrites, stepEff]
      rw [h1]; exact ih s h

theorem OnceSlicePtr.stepEff_wroteLen_iff {T : Type} (s : SliceState T) (op : Op T) :
    (stepEff s op).2.wroteLen = true ↔ (∃ v, op = Op.setOp v) ∧ s.data = none := by
  cases op with
  | setOp v => cases hd : s.data <;> simp [stepEff, hd]
  | getOp => simp [stepEff]
  | getMutOp => simp [stepEff]

theorem OnceSlicePtr.stepEff_wf {T : Type} (s : SliceState T) (op : Op T)
    (hs : ∀ l, s.data = some l → s.len = l.length) :
    ∀ l, (stepEff s op).1.data = some l → (stepEff s op).1.len = l.length := by
  cases op with
  | setOp v =>
    cases hd : s.data with
    | none =>
      intro l hl
      have h1 : (stepEff s (Op.setOp v)).1 = { data := some v, len := v.length } := by
        simp [stepEff, hd]
      rw [h1] at hl ⊢
      simp at hl ⊢
      rw [hl]
    | some w =>
      simpa [stepEff, hd] using hs
  | getOp => simpa [stepEff] using hs
  | getMutOp => simpa [stepEff] using hs

theorem OnceSlicePtr.run_wf {T : Type} :
    ∀ (ops : List (Op T)) (s : SliceState T),
      (∀ l, s.data = some l → s.len = l.length) →
      ∀ l, (run s ops).data = some l → (run s ops).len = l.length := by
  intro ops
  induction ops with
  | nil => intro s hs; exact hs
  | cons op rest ih => intro s hs; exact ih (stepEff s op).1 (stepEff_wf s op hs)

theorem OnceSlicePtr.runSets_of_set {T : Type} (s : SliceState T) (l : List T)
    (h : s.data = some l) : ∀ bs, runSets s bs = (s, bs.map SetResult.err) := by
  intro bs
  induction bs with
  | nil => rfl
  | cons b rest ih =>
    have h1 : set s b = (s, SetResult.err b) := by simp [set, h]
    simp [runSets, h1, ih]

theorem OnceSlicePtr.set_ok_state {T : Type} (s : SliceState T) (b : List T)
    (h : (set s b).2 = SetResult.ok) :
    (set s b).1 = { data := some b, len := b.length } := by
  cases hd : s.data with
  | none => simp [set, hd]
  | some w => simp [set, hd] at h

theorem OnceSlicePtrMetadata.stepEff_of_set_meta {T M : Type} (s : MetaState T M) (l : List T)
    (h : s.data = some l) (op : MOp T M) :
    stepEff s op = (s, { wrotePtr := false, wroteLen := false }) := by
  cases op <;> simp [stepEff, h]

theorem OnceSlicePtrMetadata.lenWrites_of_set_meta {T M : Type} (s : MetaState T M) (l : List T)
    (h : s.data = some l) : ∀ ops, lenWrites s ops = 0 := by
  intro ops
  induction ops with
  | nil => rfl
  | cons op rest ih =>
    calc lenWrites s (op :: rest)
        = (if (stepEff s op).2.wroteLen then 1 else 0) + lenWrites (stepEff s op).1 rest := rfl
      _ = 0 := by rw [stepEff_of_set_meta s l h op]; simpa using ih

theorem OnceSlicePtrMetadata.stepEff_ptr_eq_len_meta {T M : Type} (s : MetaState T M) (op : MOp T M) :
    (stepEff s op).2.wrotePtr = (stepEff s op).2.wroteLen := by
  cases op with
  | setOp p => cases hd : s.data <;> simp [stepEff, hd]
  | getOp => rfl
  | getMetadataOp => rfl
  | getMutOp => rfl
  | getMutMetadataOp => rfl

theorem OnceSlicePtrMetadata.ptrWrites_eq_lenWrites_meta {T M : Type} :
    ∀ (ops : List (MOp T M)) (s : MetaState T M), ptrWrites s ops = lenWrites s ops := by
  intro ops
  induction ops with
  | nil => intro s; rfl
  | cons op rest ih =>
    intro s
    calc ptrWrites s (op :: rest)
        = (if (stepEff s op).2.wrotePtr then 1 else 0) + ptrWrites (stepEff s op).1 rest := rfl
      _ = (if (stepEff s op).2.wroteLen then 1 else 0) + lenWrites (stepEff s op).1 rest := by
          rw [stepEff_ptr_eq_len_meta, ih]
      _ = lenWrites s (op :: rest) := rfl

theorem OnceSlicePtrMetadata.stepEff_noWrite_state {T M : Type} (s : MetaState T M)
    (op : MOp T M) (h : (stepEff s op).2.wroteLen = false) : (stepEff s op).1 = s := by
  cases op with
  | setOp p =>
    cases hd : s.data with
    | none => simp [stepEff, hd] at h
    | some w => simp [stepEff, hd]
  | getOp => rfl
  | getMetadataOp => rfl
  | getMutOp => rfl
  | getMutMetadataOp => rfl

theorem OnceSlicePtrMetadata.lenWrites_unset_le_one_meta {T M : Type} :
    ∀ (ops : List (MOp T M)) (s : MetaState T M), s.data = none → lenWrites s ops ≤ 1 := by
  intro ops
  induction ops with
  | nil => intro s _; exact Nat.zero_le 1
  | cons op rest ih =>
    intro s h
    cases op with
    | setOp p =>
      have h1 : lenWrites s (MOp.setOp p :: rest)
          = 1 + lenWrites ({ metadata_flag := s.metadata_flag,
                             metadata := some p.2,
                             data := some p.1, len := p.1.length } : MetaState T M) rest := by
        simp [lenWrites, stepEff, h]
      rw [h1, lenWrites_of_set_meta _ p.1 rfl rest]
    | getOp =>
      have h1 : lenWrites s (MOp.getOp :: rest) = lenWrites s rest := by
        simp [lenWrites, stepEff]
      rw [h1]; exact ih s h
    | getMetadataOp =>
      have h1 : lenWrites s (MOp.getMetadataOp :: rest) = lenWrites s rest := by
        simp [lenWrites, stepEff]
      rw [h1]; exact ih s h
    | getMutOp =>
      have h1 : lenWrites s (MOp.getMutOp :: rest) = lenWrites s rest := by
        simp [lenWrites, stepEff]
      rw [h1]; exact ih s h
    | getMutMetadataOp =>
      have h1 : lenWrites s (MOp.getMutMetadataOp :: rest) = lenWrites s rest := by
        simp [lenWrites, stepEff]
      rw [h1]; exact ih s h

theorem OnceSlicePtrMetadata.stepEff_wroteLen_iff_meta {T M : Type} (s : MetaState T M)
    (op : MOp T M) :
    (stepEff s op).2.wroteLen = true ↔ (∃ p, op = MOp.setOp p) ∧ s.data = none := by
  cases op with
  | setOp p => cases hd : s.data <;> simp [stepEff, hd]
  | getOp => simp [stepEff]
  | getMetadataOp => simp [stepEff]
  | getMutOp => simp [stepEff]
  | getMutMetadataOp => simp [stepEff]

theorem OnceSlicePtrMetadata.stepEff_wf_meta {T M : Type} (s : MetaState T M) (op : MOp T M)
    (hs : ∀ l, s.data = some l → s.len = l.length) :
    ∀ l, (stepEff s op).1.data = some l → (stepEff s op).1.len = l.length := by
  cases op with
  | setOp p =>
    cases hd : s.data with
    | none =>
      intro l hl
      have h1 : (stepEff s (MOp.setOp p)).1
          = { metadata_flag := s.metadata_flag,
              metadata := some p.2,
              data := some p.1, len := p.1.length } := by
        simp [stepEff, hd]
      rw [h1] at hl ⊢
      simp at hl ⊢
      rw [hl]
    | some w =>
      simpa [stepEff, hd] using hs
  | getOp => simpa [stepEff] using hs
  | getMetadataOp => simpa [stepEff] using hs
  | getMutOp => simpa [stepEff] using hs
  | getMutMetadataOp => simpa [stepEff] using hs

theorem OnceSlicePtrMetadata.run_wf_meta {T M : Type} :
    ∀ (ops : List (MOp T M)) (s : MetaState T M),
      (∀ l, s.data = some l → s.len = l.length) →
      ∀ l, (run s ops).data = some l → (run s ops).len = l.length := by
  intro ops
  induction ops with
  | nil => intro s hs; exact hs
  | cons op rest ih => intro s hs; exact ih (stepEff s op).1 (stepEff_wf_meta s op hs)

theorem OnceSlicePtrMetadata.stepEff_flag {T M : Type} (s : MetaState T M) (op : MOp T M) :
    (stepEff s op).1.metadata_flag = s.metadata_flag := by
  cases op with
  | setOp p => cases hd : s.data <;> simp [stepEff, hd]
  | getOp => rfl
  | getMetadataOp => rfl
  | getMutOp => rfl
  | getMutMetadataOp => rfl

theorem OnceSlicePtrMetadata.run_flag {T M : Type} :
    ∀ (ops : List (MOp T M)) (s : MetaState T M),
      (run s ops).metadata_flag = s.metadata_flag := by
  intro ops
  induction ops with
  | nil => intro s; rfl
  | cons op rest ih =>
    intro s
    calc (run s (op :: rest)).metadata_flag
        = (run (stepEff s op).1 rest).metadata_flag := rfl
      _ = (stepEff s op).1.metadata_flag := ih (stepEff s op).1
      _ = s.metadata_flag := stepEff_flag s op

theorem OnceSlicePtrMetadata.runSets_of_set_meta {T M : Type} (s : MetaState T M) (l : List T)
    (h : s.data = some l) : ∀ ps, runSets s ps = (s, ps.map SetResult.err) := by
  intro ps
  induction ps with
  | nil => rfl
  | cons p rest ih =>
    have h1 : set s p = (s, SetResult.err p) := by simp [set, h]
    simp [runSets, h1, ih]

theorem OnceSlicePtrMetadata.set_ok_state_meta {T M : Type} (s : MetaState T M) (p : List T × M)
    (h : (set s p).2 = SetResult.ok) :
    (set s p).1 = { metadata_flag := s.metadata_flag,
                    metadata := some p.2,
                    data := some p.1, len := p.1.length } := by
  cases hd : s.data with
  | none => simp [set, hd]
  | some w => simp [set, hd] at h

/-- Claim C3: on a fresh container `get` returns `None`; after one
successful `set` of a sequence of length `n ≥ 1`, `get` returns a view of
exactly the `n` elements that were set. -/
theorem claim_C3_fresh_none_set_get {T : Type} (l : List T) (h : 1 ≤ l.length) :
    OnceSlicePtr.get (OnceSlicePtr.new T) = none ∧
    (OnceSlicePtr.set (OnceSlicePtr.new T) l).2 = SetResult.ok ∧
    OnceSlicePtr.get (OnceSlicePtr.set (OnceSlicePtr.new T) l).1 = some l := by
  refine ⟨rfl, rfl, ?_⟩
  have hne : l.length ≠ 0 := by omega
  simp [OnceSlicePtr.get, OnceSlicePtr.set, OnceSlicePtr.new, hne]

/-- Witness for C3 at the concrete sequence `[5, 6]`. -/
theorem claim_C3_fresh_none_set_get_witness :
    OnceSlicePtr.get (OnceSlicePtr.set (OnceSlicePtr.new Nat) [5, 6]).1 = some [5, 6] :=
  (claim_C3_fresh_none_set_get [5, 6] (by decide)).2.2

/-- Claim C4: setting a zero-length sequence on a fresh container reports
success to the writer, yet `get` and `get_mut` afterwards both return
`None`, indistinguishable from an unset container through these readers. -/
theorem claim_C4_empty_set_reads_as_unset (T : Type) :
    (OnceSlicePtr.set (OnceSlicePtr.new T) []).2 = SetResult.ok ∧
    OnceSlicePtr.get (OnceSlicePtr.set (OnceSlicePtr.new T) []).1 = none ∧
    OnceSlicePtr.get_mut (OnceSlicePtr.set (OnceSlicePtr.new T) []).1 = none ∧
    OnceSlicePtr.get (OnceSlicePtr.new T) = none ∧
    OnceSlicePtr.get_mut (OnceSlicePtr.new T) = none := by
  refine ⟨rfl, ?_, ?_, rfl, rfl⟩ <;>
    simp [OnceSlicePtr.get, OnceSlicePtr.get_mut, OnceSlicePtr.set, OnceSlicePtr.new]

/-- Claim C8: from a fresh container, `set [1,2,3]` succeeds; a second
sequential `set [4,5,6]` fails, yields back `[4,5,6]` unchanged and leaves
the state unchanged; `get` afterwards shows `[1,2,3]`. -/
theorem claim_C8_sequential_scenario :
    (OnceSlicePtr.set (OnceSlicePtr.new Nat) [1, 2, 3]).2 = SetResult.ok ∧
    OnceSlicePtr.set (OnceSlicePtr.set (OnceSlicePtr.new Nat) [1, 2, 3]).1 [4, 5, 6]
      = ((OnceSlicePtr.set (OnceSlicePtr.new Nat) [1, 2, 3]).1, SetResult.err [4, 5, 6]) ∧
    OnceSlicePtr.get (OnceSlicePtr.set (OnceSlicePtr.new Nat) [1, 2, 3]).1 = some [1, 2, 3] := by
  decide

/-- Claim C1: in every state of `OnceSlicePtrMetadata` reachable by any
sequence of operations from `new` (including successful `set` calls), the
`metadata_flag` stays false, so `get_metadata` and `get_mut_metadata`
always return `None`: no store to the flag exists in the source, hence the
metadata is never observable. -/
theorem claim_C1_metadata_never_ready {T M : Type} (ops : List (OnceSlicePtrMetadata.MOp T M)) :
    (OnceSlicePtrMetadata.run (OnceSlicePtrMetadata.new T M) ops).metadata_flag = false ∧
    OnceSlicePtrMetadata.get_metadata
        (OnceSlicePtrMetadata.run (OnceSlicePtrMetadata.new T M) ops) = none ∧
    OnceSlicePtrMetadata.get_mut_metadata
        (OnceSlicePtrMetadata.run (OnceSlicePtrMetadata.new T M) ops) = none := by
  have hf : (OnceSlicePtrMetadata.run (OnceSlicePtrMetadata.new T M) ops).metadata_flag
      = false := OnceSlicePtrMetadata.run_flag ops (OnceSlicePtrMetadata.new T M)
  refine ⟨hf, ?_, ?_⟩ <;>
    simp [OnceSlicePtrMetadata.get_metadata, OnceSlicePtrMetadata.get_mut_metadata, hf]

/-- Claim C2: once a `set` has succeeded on either container, every later
`set` call fails, hands back exactly the value it was offered (the box,
and for the metadata variant the pair of box and metadata value), and
leaves the state unchanged, for an arbitrary number of later attempts. -/
theorem claim_C2_set_after_success_always_fails {T M : Type}
    (s0 : SliceState T) (b : List T) (bs : List (List T))
    (ms0 : MetaState T M) (p : List T × M) (ps : List (List T × M))
    (h : (OnceSlicePtr.set s0 b).2 = SetResult.ok)
    (hm : (OnceSlicePtrMetadata.set ms0 p).2 = SetResult.ok) :
    OnceSlicePtr.runSets (OnceSlicePtr.set s0 b).1 bs
      = ((OnceSlicePtr.set s0 b).1, bs.map SetResult.err) ∧
    OnceSlicePtrMetadata.runSets (OnceSlicePtrMetadata.set ms0 p).1 ps
      = ((OnceSlicePtrMetadata.set ms0 p).1, ps.map SetResult.err) := by
  constructor
  · have h1 := OnceSlicePtr.set_ok_state s0 b h
    exact OnceSlicePtr.runSets_of_set _ b (by rw [h1]) bs
  · have h1 := OnceSlicePtrMetadata.set_ok_state_meta ms0 p hm
    exact OnceSlicePtrMetadata.runSets_of_set_meta _ p.1 (by rw [h1]) ps

/-- Witness for C2 at concrete containers and inputs. -/
theorem claim_C2_set_after_success_always_fails_witness :
    OnceSlicePtr.runSets (OnceSlicePtr.set (OnceSlicePtr.new Nat) [1]).1 [[2], [3]]
      = ((OnceSlicePtr.set (OnceSlicePtr.new Nat) [1]).1,
         [SetResult.err [2], SetResult.err [3]]) ∧
    OnceSlicePtrMetadata.runSets
        (OnceSlicePtrMetadata.set (OnceSlicePtrMetadata.new Nat Nat) ([4], 7)).1 [([5], 8)]
      = ((OnceSlicePtrMetadata.set (OnceSlicePtrMetadata.new Nat Nat) ([4], 7)).1,
         [SetResult.err ([5], 8)]) := by
  have h := claim_C2_set_after_success_always_fails (OnceSlicePtr.new Nat) [1] [[2], [3]]
    (OnceSlicePtrMetadata.new Nat Nat) ([4], 7) [([5], 8)] rfl rfl
  simpa using h

/-- Claim C5, evaluated at the failing input: a container set with
`[1, 2, 3]` and then dropped runs the element destructors in place exactly
once (the `dropped` list is exactly the owned elements) but never
deallocates the backing allocation (`freed = false`), because the drop
path only calls `drop_in_place` on the raw slice and the box was forgotten
in `set`; the claim requires the backing allocation to be released. The
never-set half of the claim does hold: dropping a fresh container destroys
nothing and frees nothing. -/
theorem claim_C5_drop_runs_dtors_but_never_frees :
    OnceSlicePtr.dropModel (OnceSlicePtr.set (OnceSlicePtr.new Nat) [1, 2, 3]).1
      = { dropped := [1, 2, 3], freed := false } ∧
    OnceSlicePtr.dropModel (OnceSlicePtr.new Nat) = { dropped := [], freed := false } := by
  decide

/-- Claim C6: dropping a successfully set `OnceSlicePtrMetadata` runs the
destructors of the sequence elements (all of them, in place), but the
destructor of the metadata value `M` never runs, even though the metadata
was written by the winning `set` (its storage holds `some m`): the
metadata lives in a `MaybeUninit`, which never drops its content, and the
drop path contains no manual drop of it. -/
theorem claim_C6_metadata_destructor_never_runs {T M : Type} (l : List T) (m : M) :
    (OnceSlicePtrMetadata.set (OnceSlicePtrMetadata.new T M) (l, m)).1.metadata = some m ∧
    OnceSlicePtrMetadata.dropModel
        (OnceSlicePtrMetadata.set (OnceSlicePtrMetadata.new T M) (l, m)).1
      = { dropped := l, freed := false, metadataDropped := false } := by
  constructor
  · rfl
  · simp [OnceSlicePtrMetadata.dropModel, OnceSlicePtrMetadata.set, OnceSlicePtrMetadata.new]

/-- Claim C7: for any N ≥ 1 `set` calls racing on a fresh container, taken
in the linearization order of their compare-exchange steps, exactly one
call succeeds (result count of successes is 1) and every losing call is
handed back precisely the sequence it supplied (the result list is the
single success followed by an error carrying each remaining input in
order, value for value). -/
theorem claim_C7_exactly_one_winner {T : Type} (bs : List (List T)) (h : bs ≠ []) :
    (OnceSlicePtr.runSets (OnceSlicePtr.new T) bs).2
      = SetResult.ok :: bs.tail.map SetResult.err ∧
    ((OnceSlicePtr.runSets (OnceSlicePtr.new T) bs).2.countP fun r => SetResult.isOk r) = 1 := by
  cases bs with
  | nil => exact absurd rfl h
  | cons b rest =>
    have h2 := OnceSlicePtr.runSets_of_set
      ({ data := some b, len := b.length } : SliceState T) b rfl rest
    have hr : (OnceSlicePtr.runSets (OnceSlicePtr.new T) (b :: rest)).2
        = SetResult.ok :: rest.map SetResult.err := by
      simp [OnceSlicePtr.runSets, OnceSlicePtr.set, OnceSlicePtr.new, h2]
    refine ⟨hr, ?_⟩
    rw [hr]
    have h3 : ((rest.map SetResult.err).countP fun r => SetResult.isOk r) = 0 := by
      simpa using SetResult.countP_map_err (fun x : List T => x) rest
    simp [List.countP_cons, SetResult.isOk, h3]

/-- Witness for C7 with two racing calls. -/
theorem claim_C7_exactly_one_winner_witness :
    (OnceSlicePtr.runSets (OnceSlicePtr.new Nat) [[1], [2]]).2
      = SetResult.ok :: [[2]].map SetResult.err :=
  (claim_C7_exactly_one_winner [[1], [2]] (by decide)).1

/-- Claim C9: over any operation trace from `new`, on either container:
the number of stores to `ptr` equals the number of stores to `len`; `len`
is stored at most once; a step stores to `len` exactly when it is a `set`
call finding the pointer at the sentinel (the winning transition), so no
read accessor and no later `set` ever stores either field; and whenever
the pointer holds a sequence, `len` equals the length of the winning
sequence. -/
theorem claim_C9_fields_written_at_most_once {T M : Type}
    (ops : List (OnceSlicePtr.Op T)) (mops : List (OnceSlicePtrMetadata.MOp T M)) :
    OnceSlicePtr.ptrWrites (OnceSlicePtr.new T) ops
        = OnceSlicePtr.lenWrites (OnceSlicePtr.new T) ops ∧
    OnceSlicePtr.lenWrites (OnceSlicePtr.new T) ops ≤ 1 ∧
    (∀ (s : SliceState T) (op : OnceSlicePtr.Op T),
        (OnceSlicePtr.stepEff s op).2.wroteLen = true ↔
          (∃ v, op = OnceSlicePtr.Op.setOp v) ∧ s.data = none) ∧
    (∀ l, (OnceSlicePtr.run (OnceSlicePtr.new T) ops).data = some l →
        (OnceSlicePtr.run (OnceSlicePtr.new T) ops).len = l.length) ∧
    OnceSlicePtrMetadata.ptrWrites (OnceSlicePtrMetadata.new T M) mops
        = OnceSlicePtrMetadata.lenWrites (OnceSlicePtrMetadata.new T M) mops ∧
    OnceSlicePtrMetadata.lenWrites (OnceSlicePtrMetadata.new T M) mops ≤ 1 ∧
    (∀ (s : MetaState T M) (op : OnceSlicePtrMetadata.MOp T M),
        (OnceSlicePtrMetadata.stepEff s op).2.wroteLen = true ↔
          (∃ p, op = OnceSlicePtrMetadata.MOp.setOp p) ∧ s.data = none) ∧
    (∀ l, (OnceSlicePtrMetadata.run (OnceSlicePtrMetadata.new T M) mops).data = some l →
        (OnceSlicePtrMetadata.run (OnceSlicePtrMetadata.new T M) mops).len = l.length) := by
  refine ⟨OnceSlicePtr.ptrWrites_eq_lenWrites ops _,
    OnceSlicePtr.lenWrites_unset_le_one ops _ rfl,
    fun s op => OnceSlicePtr.stepEff_wroteLen_iff s op,
    OnceSlicePtr.run_wf ops _ ?_,
    OnceSlicePtrMetadata.ptrWrites_eq_lenWrites_meta mops _,
    OnceSlicePtrMetadata.lenWrites_unset_le_one_meta mops _ rfl,
    fun s op => OnceSlicePtrMetadata.stepEff_wroteLen_iff_meta s op,
    OnceSlicePtrMetadata.run_wf_meta mops _ ?_⟩
  · intro l hl
    simp [OnceSlicePtr.new] at hl
  · intro l hl
    simp [OnceSlicePtrMetadata.new] at hl

/-- Witness for C9 on a trace with one winning set per container. -/
theorem claim_C9_fields_written_at_most_once_witness :
    (OnceSlicePtr.run (OnceSlicePtr.new Nat) [OnceSlicePtr.Op.setOp [1, 2]]).len = 2 ∧
    (OnceSlicePtrMetadata.run (OnceSlicePtrMetadata.new Nat Nat)
        [OnceSlicePtrMetadata.MOp.setOp ([3], 9)]).len = 1 := by
  have h := claim_C9_fields_written_at_most_once
    [OnceSlicePtr.Op.setOp [1, 2]] [OnceSlicePtrMetadata.MOp.setOp (([3], 9) : List Nat × Nat)]
  exact ⟨h.2.2.2.1 [1, 2] rfl, h.2.2.2.2.2.2.2 [3] rfl⟩

/-- Claim C10: a zero-length `set` on a fresh container succeeds and
consumes the one-shot slot of either container: every later `set` fails
and returns its input while `get` still returns `None`, so the consumed
slot is observable through `set` though not through `get`. -/
theorem claim_C10_empty_set_consumes_slot {T M : Type} (m : M)
    (bs : List (List T)) (ps : List (List T × M)) :
    (OnceSlicePtr.set (OnceSlicePtr.new T) []).2 = SetResult.ok ∧
    OnceSlicePtr.get (OnceSlicePtr.set (OnceSlicePtr.new T) []).1 = none ∧
    OnceSlicePtr.runSets (OnceSlicePtr.set (OnceSlicePtr.new T) []).1 bs
      = ((OnceSlicePtr.set (OnceSlicePtr.new T) []).1, bs.map SetResult.err) ∧
    (OnceSlicePtrMetadata.set (OnceSlicePtrMetadata.new T M) ([], m)).2 = SetResult.ok ∧
    OnceSlicePtrMetadata.get
        (OnceSlicePtrMetadata.set (OnceSlicePtrMetadata.new T M) ([], m)).1 = none ∧
    OnceSlicePtrMetadata.runSets
        (OnceSlicePtrMetadata.set (OnceSlicePtrMetadata.new T M) ([], m)).1 ps
      = ((OnceSlicePtrMetadata.set (OnceSlicePtrMetadata.new T M) ([], m)).1,
         ps.map SetResult.err) := by
  refine ⟨rfl, ?_, ?_, rfl, ?_, ?_⟩
  · simp [OnceSlicePtr.get, OnceSlicePtr.set, OnceSlicePtr.new]
  · exact OnceSlicePtr.runSets_of_set _ [] rfl bs
  · simp [OnceSlicePtrMetadata.get, OnceSlicePtrMetadata.set, OnceSlicePtrMetadata.new]
  · exact OnceSlicePtrMetadata.runSets_of_set_meta _ [] rfl ps
